import Mathlib

/-!
Verification of the chunking-and-sequential-translation pipeline of
`app_advanced.py`: the chunker `split_text_into_chunks`, the page-level
translation driver `translate_page_by_page`, and the two-phase map-reduce
summarizer `summarize_text`.

Modelling conventions:

* Python strings are modelled as `String` / `List Char`; `text.split('\n')`
  is modelled by `pySplit '\n'`, `str.join` by `joinSep`, slicing by
  `List.take` / `List.drop` (Python slices strings by code points).
* The token-count oracle `get_token_count(text, model)` calls the external
  `tiktoken` library; the `model` argument only selects the encoding.  It is
  modelled by an abstract pure function `tok : List Char → Nat`, exactly the
  interface the pipeline uses.
* The force-split cut point `int(len(sentence) * (max_tokens / token_count))`
  (line 55) is computed in IEEE-754 floating point, which can round below
  the exact floor (CPython evaluates `int(49 * (1 / 49))` to 0).  It is
  modelled by an abstract parameter `cutFn : CutFn` applied to the sentence
  length, the budget and the token count; theorems assume of `cutFn` only
  properties that the floating-point computation has, and concrete
  evaluations use `intCut`, the exact floor, on inputs where CPython
  computes the same value.
* The `while` loop of the force split does not terminate for every oracle
  (a cut point of `0` leaves `sentence` unchanged forever).  The loop is
  therefore run on `sentence.length + 1` units of fuel: when every cut point
  is positive the remaining text strictly shrinks each round, so this fuel is
  enough for every terminating run, and a `none` result marks exactly the
  runs in which the Python loop never terminates.
* The OpenAI client is modelled by an oracle
  `Backend = Nat → String → Except String String` mapping the index of a
  call (in issue order) and the user-message content to either the reply
  text (`res.choices[0].message.content`) or a raised exception.  A `Trace`
  records the user-message content of every backend call, every `st.error`
  report, and every progress label, each in issue order.  (`st.info` and
  `progress_bar.empty()` are pure display operations and are not recorded.)
-/

/-- The token-count oracle interface of `get_token_count`: a pure function
from text to a token count, as selected by the `model` argument. -/
abbrev Tok := List Char → Nat

/-- The force-split cut-point computation
`int(len(sentence) * (max_tokens / token_count))`, abstracted over its
floating-point evaluation: the arguments are the sentence length, the budget
and the token count (see the module docstring). -/
abbrev CutFn := Nat → Nat → Nat → Nat

/-- The exact floor `len * maxTokens / tokenCount`.  On every concrete input
appearing in the counterexamples and witnesses below the floating-point
`int(len * (max_tokens / token_count))` computes this same value (each
checked against CPython), though not on all inputs. -/
def intCut : CutFn := fun len maxTokens tokenCount => len * maxTokens / tokenCount

/-- Python `text.split(sep)` for a one-character separator: splits on every
occurrence of `sep`; the empty string yields `[""]`. -/
def pySplit (sep : Char) : List Char → List (List Char)
  | [] => [[]]
  | c :: cs =>
    if c = sep then [] :: pySplit sep cs
    else
      match pySplit sep cs with
      | [] => [[c]]
      | g :: gs => (c :: g) :: gs

/-- The force-split `while` loop of `split_text_into_chunks` (lines 54-57):
while the sentence exceeds the budget, cut off a character-proportional
front piece as a chunk and continue on the remainder.  `none` marks a
non-terminating run of the Python loop (see the module docstring). -/
def forceSplitGo (cutFn : CutFn) (tok : Tok) (maxTokens : Nat) :
    Nat → List Char → List (List Char) → Option (List (List Char) × List Char)
  | 0, _, _ => none
  | fuel + 1, sentence, acc =>
    if tok sentence ≤ maxTokens then some (acc, sentence)
    else
      let cutOffPoint := cutFn sentence.length maxTokens (tok sentence)
      forceSplitGo cutFn tok maxTokens fuel (sentence.drop cutOffPoint)
        (acc ++ [sentence.take cutOffPoint])

/-- The main loop of `split_text_into_chunks` (lines 48-59): greedily
accumulate lines (each with its trailing newline) into `currentChunk` while
the budget check passes; otherwise flush the buffer, force-split the line if
it is itself over budget, and restart the buffer from the remainder. -/
def splitLoop (cutFn : CutFn) (tok : Tok) (maxTokens : Nat) :
    List (List Char) → List Char → List (List Char) → Option (List (List Char))
  | [], currentChunk, chunks =>
    some (if currentChunk = [] then chunks else chunks ++ [currentChunk])
  | sentence :: rest, currentChunk, chunks =>
    if tok (currentChunk ++ sentence ++ ['\n']) ≤ maxTokens then
      splitLoop cutFn tok maxTokens rest (currentChunk ++ sentence ++ ['\n']) chunks
    else
      let chunks1 := if currentChunk = [] then chunks else chunks ++ [currentChunk]
      match forceSplitGo cutFn tok maxTokens (sentence.length + 1) sentence [] with
      | none => none
      | some (pieces, remainder) =>
        splitLoop cutFn tok maxTokens rest (remainder ++ ['\n']) (chunks1 ++ pieces)

/-- `split_text_into_chunks(text, model, max_tokens)` (lines 42-60), with the
`model`-selected token oracle passed explicitly.  `none` marks the inputs on
which the Python function never returns. -/
def split_text_into_chunks (cutFn : CutFn) (tok : Tok) (text : List Char) (maxTokens : Nat) :
    Option (List (List Char)) :=
  splitLoop cutFn tok maxTokens (pySplit '\n' text) [] []

deriving instance DecidableEq for Except

/-- The backend-call oracle: maps the index of a `chat.completions.create`
call (in issue order) and its user-message content to the reply text or a
raised exception. -/
abbrev Backend := Nat → String → Except String String

/-- Observable side effects of a pipeline run: user-message contents of the
backend calls, `st.error` reports, and progress-bar labels, in issue order. -/
structure Trace where
  calls : List String
  errors : List String
  progress : List String
deriving DecidableEq, Repr

/-- Python `sep.join(parts)`. -/
def joinSep (sep : String) : List String → String
  | [] => ""
  | [s] => s
  | s :: rest => s ++ sep ++ joinSep sep rest

/-- Python `enumerate` starting at `i`. -/
def enumFrom (i : Nat) : List α → List (Nat × α)
  | [] => []
  | a :: as => (i, a) :: enumFrom (i + 1) as

/-- The fixed sentinel substituted for a chunk whose translation call
raised (line 99). -/
def errSentinel : String := "--- エラー：この部分の翻訳に失敗しました ---"

/-- The placeholder output for a blank page (line 79). -/
def emptyPagePlaceholder (pageNum : Nat) : String :=
  "--- ページ " ++ toString pageNum ++ " (内容は空でした) ---"

/-- The page delimiter prepended to each page output (line 109). -/
def pageHeader (pageNum : Nat) : String :=
  "--- ページ " ++ toString pageNum ++ " ---\n\n"

/-- The per-page progress label (line 74). -/
def pageProgressLabel (pageNum total : Nat) : String :=
  "📄 ページ " ++ toString pageNum ++ "/" ++ toString total ++ " の翻訳中..."

/-- The `st.error` report for a failed translation call (line 98). -/
def translateErrorMsg (pageNum : Nat) (e : String) : String :=
  "ページ " ++ toString pageNum ++ " の翻訳中にエラーが発生しました: " ++ e

/-- The inner chunk loop of `translate_page_by_page` (lines 86-99): one
backend call per chunk; a reply is appended verbatim, an exception is
reported and replaced by the fixed sentinel. -/
def chunkLoop (b : Backend) (pageNum : Nat) : List String → Trace → List String × Trace
  | [], tr => ([], tr)
  | chunk :: rest, tr =>
    match b tr.calls.length chunk with
    | .ok reply =>
      let res := chunkLoop b pageNum rest { tr with calls := tr.calls ++ [chunk] }
      (reply :: res.1, res.2)
    | .error e =>
      let res := chunkLoop b pageNum rest
        { calls := tr.calls ++ [chunk],
          errors := tr.errors ++ [translateErrorMsg pageNum e],
          progress := tr.progress }
      (errSentinel :: res.1, res.2)

/-- The page loop of `translate_page_by_page` (lines 72-103): per page, emit
a progress label; a blank page short-circuits to a placeholder; otherwise
chunk the page (budget 2000), translate each chunk, and join the parts with
a newline. -/
def pageLoop (b : Backend) (cutFn : CutFn) (tok : Tok) (total : Nat) :
    List String → Nat → Trace → Option (List String × Trace)
  | [], _, tr => some ([], tr)
  | pageText :: rest, i, tr =>
    let tr1 : Trace := { tr with progress := tr.progress ++ [pageProgressLabel (i + 1) total] }
    if pageText.data.all Char.isWhitespace then
      match pageLoop b cutFn tok total rest (i + 1) tr1 with
      | none => none
      | some (outs, tr2) => some (emptyPagePlaceholder (i + 1) :: outs, tr2)
    else
      match split_text_into_chunks cutFn tok pageText.data 2000 with
      | none => none
      | some chunkLists =>
        let subChunks := chunkLists.map fun l => String.mk l
        let res := chunkLoop b (i + 1) subChunks tr1
        match pageLoop b cutFn tok total rest (i + 1) res.2 with
        | none => none
        | some (outs, tr3) => some (joinSep "\n" res.1 :: outs, tr3)

/-- `translate_page_by_page(client, pages_text, model, target_language)`
(lines 63-109).  An empty page list returns `""` at once (line 65); otherwise
every page is processed in order and the page outputs are joined with the
numbered page delimiters.  `none` marks a run on which the chunker never
returns. -/
def translate_page_by_page (b : Backend) (cutFn : CutFn) (tok : Tok) (pagesText : List String) :
    Option (String × Trace) :=
  if pagesText = [] then some ("", ⟨[], [], []⟩)
  else
    let tr0 : Trace := ⟨[], [], ["翻訳の準備をしています..."]⟩
    match pageLoop b cutFn tok pagesText.length pagesText 0 tr0 with
    | none => none
    | some (outs, tr) =>
      some (joinSep "\n\n\n" ((enumFrom 0 outs).map fun q => pageHeader (q.1 + 1) ++ q.2),
        { tr with progress := tr.progress ++ ["翻訳完了！"] })

/-- The map-phase prompt of `summarize_text` (line 121). -/
def mapPrompt (chunk : String) : String :=
  "以下は論文の一部です。この部分の要点を簡潔にまとめてください。\n\n---\n" ++ chunk

/-- The reduce-phase prompt of `summarize_text` (line 127). -/
def reducePrompt (customPrompt combined : String) : String :=
  "以下は論文の各パートの要約です。これらの情報を使って、ユーザーの指示に従った最終的な要約を作成してください。\n\nユーザーの指示:「"
    ++ customPrompt ++ "」\n\n---\n各パートの要約:\n" ++ combined

/-- The `st.error` report of the `except` clause of `summarize_text`
(line 135). -/
def summaryErrorMsg (e : String) : String := "要約エラー: " ++ e

/-- The per-part progress label of `summarize_text` (line 125). -/
def summaryProgressLabel (partNum total : Nat) : String :=
  "パート " ++ toString partNum ++ "/" ++ toString total ++ " の要約完了"

/-- The map phase of `summarize_text` (lines 120-125): one backend call per
chunk, in order; the first raised exception aborts the loop (the `except`
clause reports it and the whole call returns `""`). -/
def mapLoop (b : Backend) (total : Nat) :
    List String → Nat → Trace → Option (List String) × Trace
  | [], _, tr => (some [], tr)
  | chunk :: rest, i, tr =>
    match b tr.calls.length (mapPrompt chunk) with
    | .error e =>
      (none, { calls := tr.calls ++ [mapPrompt chunk],
               errors := tr.errors ++ [summaryErrorMsg e],
               progress := tr.progress })
    | .ok reply =>
      let res := mapLoop b total rest (i + 1)
        { calls := tr.calls ++ [mapPrompt chunk],
          errors := tr.errors,
          progress := tr.progress ++ [summaryProgressLabel (i + 1) total] }
      match res.1 with
      | none => (none, res.2)
      | some parts => (some (reply :: parts), res.2)

/-- `summarize_text(client, text, model, custom_prompt)` (lines 112-135).
Empty text returns `""` at once (line 114); otherwise the text is chunked
(budget 3000), each chunk is summarized, and one final reduce call combines
the intermediate summaries; any raised exception is reported and the whole
call returns `""`. -/
def summarize_text (b : Backend) (cutFn : CutFn) (tok : Tok) (text : String) (customPrompt : String) :
    Option (String × Trace) :=
  if text = "" then some ("", ⟨[], [], []⟩)
  else
    match split_text_into_chunks cutFn tok text.data 3000 with
    | none => none
    | some chunkLists =>
      let chunks := chunkLists.map fun l => String.mk l
      let tr0 : Trace := ⟨[], [], ["段階的要約を開始..."]⟩
      let res := mapLoop b chunks.length chunks 0 tr0
      match res.1 with
      | none => some ("", res.2)
      | some summaries =>
        let combined := joinSep "\n" summaries
        let finalPrompt := reducePrompt customPrompt combined
        match b res.2.calls.length finalPrompt with
        | .error e =>
          some ("", { calls := res.2.calls ++ [finalPrompt],
                      errors := res.2.errors ++ [summaryErrorMsg e],
                      progress := res.2.progress })
        | .ok reply =>
          some (reply, { res.2 with calls := res.2.calls ++ [finalPrompt] })

/-! ### Chunker lemmas -/

theorem pySplit_ne_nil (sep : Char) (l : List Char) : pySplit sep l ≠ [] := by
  induction l with
  | nil => simp [pySplit]
  | cons c cs ih =>
    by_cases h : c = sep
    · simp [pySplit, h]
    · simp only [pySplit, if_neg h]
      cases hs : pySplit sep cs with
      | nil => simp
      | cons g gs => simp

/-- Splitting on newlines and re-appending a newline to every part
reconstructs the text followed by one extra newline. -/
theorem pySplit_flatten (l : List Char) :
    ((pySplit '\n' l).map (fun s => s ++ ['\n'])).flatten = l ++ ['\n'] := by
  induction l with
  | nil => simp [pySplit]
  | cons c cs ih =>
    by_cases h : c = '\n'
    · subst h
      simp [pySplit, ih]
    · simp only [pySplit, if_neg h]
      cases hs : pySplit '\n' cs with
      | nil => exact absurd hs (pySplit_ne_nil '\n' cs)
      | cons g gs =>
        rw [hs] at ih
        simpa using congrArg (fun t => c :: t) ih

/-- The force-split loop loses no characters: the pieces it cuts off,
followed by the remainder, concatenate to the accumulated pieces and the
original sentence. -/
theorem forceSplitGo_flatten (cutFn : CutFn) (tok : Tok) (maxTokens : Nat) :
    ∀ (fuel : Nat) (sentence : List Char) (acc pieces : List (List Char))
      (remainder : List Char),
      forceSplitGo cutFn tok maxTokens fuel sentence acc = some (pieces, remainder) →
      pieces.flatten ++ remainder = acc.flatten ++ sentence := by
  intro fuel
  induction fuel with
  | zero => intro s acc p r h; simp [forceSplitGo] at h
  | succ n ih =>
    intro s acc p r h
    by_cases hle : tok s ≤ maxTokens
    · simp only [forceSplitGo, if_pos hle, Option.some.injEq, Prod.mk.injEq] at h
      rw [← h.1, ← h.2]
    · simp only [forceSplitGo, if_neg hle] at h
      have := ih _ _ _ _ h
      rw [this]
      simp

/-- The main loop loses no characters. -/
theorem splitLoop_flatten (cutFn : CutFn) (tok : Tok) (maxTokens : Nat) :
    ∀ (sentences : List (List Char)) (currentChunk : List Char)
      (chunks res : List (List Char)),
      splitLoop cutFn tok maxTokens sentences currentChunk chunks = some res →
      res.flatten =
        chunks.flatten ++ currentChunk ++ (sentences.map (fun s => s ++ ['\n'])).flatten := by
  intro sentences
  induction sentences with
  | nil =>
    intro cur chunks res h
    simp only [splitLoop, Option.some.injEq] at h
    by_cases hc : cur = []
    · rw [if_pos hc] at h
      rw [← h, hc]
      simp
    · rw [if_neg hc] at h
      rw [← h]
      simp
  | cons s rest ih =>
    intro cur chunks res h
    simp only [splitLoop] at h
    by_cases hle : tok (cur ++ s ++ ['\n']) ≤ maxTokens
    · rw [if_pos hle] at h
      have := ih _ _ _ h
      rw [this]
      simp
    · rw [if_neg hle] at h
      cases hf : forceSplitGo cutFn tok maxTokens (s.length + 1) s [] with
      | none => rw [hf] at h; exact absurd h (by simp)
      | some pr =>
        rw [hf] at h
        have hjoin := forceSplitGo_flatten cutFn tok maxTokens _ _ _ _ _
          (by rw [hf] : forceSplitGo cutFn tok maxTokens (s.length + 1) s [] = some (pr.1, pr.2))
        simp only at h
        have := ih _ _ _ h
        rw [this]
        simp only [List.flatten_nil, List.nil_append] at hjoin
        by_cases hc : cur = []
        · simp only [if_pos hc] at *
          rw [hc]
          simp only [List.map_cons, List.flatten_cons, List.flatten_append,
            List.append_assoc, List.nil_append]
          rw [← List.append_assoc pr.1.flatten, hjoin]
        · simp only [if_neg hc] at *
          simp only [List.map_cons, List.flatten_cons, List.flatten_append,
            List.flatten_cons, List.append_assoc, List.flatten_nil, List.append_nil]
          rw [← List.append_assoc pr.1.flatten, hjoin]

/-- An over-budget sentence whose computed cut point is 0 never shrinks:
the force-split loop runs forever, whatever the fuel, exactly as the Python
`while` loop never terminates there. -/
theorem forceSplitGo_zero_cut (cutFn : CutFn) (tok : Tok) (maxTokens : Nat)
    (s : List Char) (hs : maxTokens < tok s)
    (hzero : cutFn s.length maxTokens (tok s) = 0) :
    ∀ (fuel : Nat) (acc : List (List Char)),
      forceSplitGo cutFn tok maxTokens fuel s acc = none := by
  intro fuel
  induction fuel with
  | zero => intro acc; rfl
  | succ n ih =>
    intro acc
    simp only [forceSplitGo, if_neg (Nat.not_le_of_lt hs), hzero, List.drop_zero,
      List.take_zero]
    exact ih _

/-- If every cut point computed on an over-budget sentence is at least 1 and
the empty string is within budget, the force-split loop terminates within
its fuel and leaves a remainder at or under the budget. -/
theorem forceSplitGo_total (cutFn : CutFn) (tok : Tok) (maxTokens : Nat)
    (hcut : ∀ s : List Char, maxTokens < tok s → 1 ≤ cutFn s.length maxTokens (tok s))
    (htok0 : tok [] ≤ maxTokens) :
    ∀ (fuel : Nat) (s : List Char) (acc : List (List Char)), s.length < fuel →
      ∃ pieces remainder,
        forceSplitGo cutFn tok maxTokens fuel s acc = some (pieces, remainder) ∧
          tok remainder ≤ maxTokens := by
  intro fuel
  induction fuel with
  | zero => intro s acc h; omega
  | succ n ih =>
    intro s acc h
    by_cases hle : tok s ≤ maxTokens
    · exact ⟨acc, s, by simp [forceSplitGo, if_pos hle], hle⟩
    · have htok : maxTokens < tok s := Nat.lt_of_not_le hle
      have hone : 1 ≤ cutFn s.length maxTokens (tok s) := hcut s htok
      have hpos : 1 ≤ s.length := by
        cases s with
        | nil => exact absurd htok0 (Nat.not_le_of_lt htok)
        | cons a as => simp
      have hdrop : (s.drop (cutFn s.length maxTokens (tok s))).length < n := by
        rw [List.length_drop]
        omega
      obtain ⟨pieces, remainder, heq, hrem⟩ :=
        ih (s.drop (cutFn s.length maxTokens (tok s)))
          (acc ++ [s.take (cutFn s.length maxTokens (tok s))]) hdrop
      exact ⟨pieces, remainder, by simp only [forceSplitGo, if_neg hle]; exact heq, hrem⟩

/-- Under the same cut-point condition the whole chunker terminates. -/
theorem splitLoop_total (cutFn : CutFn) (tok : Tok) (maxTokens : Nat)
    (hcut : ∀ s : List Char, maxTokens < tok s → 1 ≤ cutFn s.length maxTokens (tok s))
    (htok0 : tok [] ≤ maxTokens) :
    ∀ (sentences : List (List Char)) (currentChunk : List Char) (chunks : List (List Char)),
      ∃ res, splitLoop cutFn tok maxTokens sentences currentChunk chunks = some res := by
  intro sentences
  induction sentences with
  | nil => intro cur chunks; exact ⟨_, rfl⟩
  | cons s rest ih =>
    intro cur chunks
    by_cases hle : tok (cur ++ s ++ ['\n']) ≤ maxTokens
    · obtain ⟨res, hres⟩ := ih (cur ++ s ++ ['\n']) chunks
      exact ⟨res, by simp only [splitLoop, if_pos hle]; exact hres⟩
    · obtain ⟨pieces, remainder, heq, _⟩ :=
        forceSplitGo_total cutFn tok maxTokens hcut htok0 (s.length + 1) s [] (Nat.lt_succ_self _)
      obtain ⟨res, hres⟩ := ih (remainder ++ ['\n'])
        ((if cur = [] then chunks else chunks ++ [cur]) ++ pieces)
      exact ⟨res, by simp only [splitLoop, if_neg hle]; rw [heq]; exact hres⟩

/-- Character-count model: provided the computed cut point never exceeds the
budget, each force-split piece is at most `maxTokens` characters and the
remainder is at or under the budget. -/
theorem forceSplitGo_len_bound (cutFn : CutFn) (maxTokens : Nat)
    (hcutle : ∀ l m : Nat, cutFn l m l ≤ m) :
    ∀ (fuel : Nat) (s : List Char) (acc pieces : List (List Char)) (remainder : List Char),
      forceSplitGo cutFn List.length maxTokens fuel s acc = some (pieces, remainder) →
      (∀ c ∈ acc, c.length ≤ maxTokens + 1) →
      (∀ c ∈ pieces, c.length ≤ maxTokens + 1) ∧ remainder.length ≤ maxTokens := by
  intro fuel
  induction fuel with
  | zero => intro s acc p r h _; simp [forceSplitGo] at h
  | succ n ih =>
    intro s acc p r h hacc
    by_cases hle : List.length s ≤ maxTokens
    · simp only [forceSplitGo, if_pos hle, Option.some.injEq, Prod.mk.injEq] at h
      exact ⟨h.1 ▸ hacc, h.2 ▸ hle⟩
    · simp only [forceSplitGo, if_neg hle] at h
      refine ih _ _ _ _ h ?_
      intro c hc
      rcases List.mem_append.mp hc with hc | hc
      · exact hacc c hc
      · have hceq : c = s.take (cutFn s.length maxTokens (List.length s)) := by simpa using hc
        rw [hceq, List.length_take]
        exact Nat.le_trans (Nat.le_trans (Nat.min_le_left _ _) (hcutle s.length maxTokens))
          (Nat.le_succ _)

/-- Character-count model: every chunk the main loop ever returns has at
most `maxTokens + 1` characters (the `+ 1` coming from the newline appended
to a force-split remainder). -/
theorem splitLoop_len_bound (cutFn : CutFn) (maxTokens : Nat)
    (hcutle : ∀ l m : Nat, cutFn l m l ≤ m) :
    ∀ (sentences : List (List Char)) (currentChunk : List Char) (chunks res : List (List Char)),
      splitLoop cutFn List.length maxTokens sentences currentChunk chunks = some res →
      (∀ c ∈ chunks, c.length ≤ maxTokens + 1) →
      currentChunk.length ≤ maxTokens + 1 →
      ∀ c ∈ res, c.length ≤ maxTokens + 1 := by
  intro sentences
  induction sentences with
  | nil =>
    intro cur chunks res h hchunks hcur
    simp only [splitLoop, Option.some.injEq] at h
    by_cases hc : cur = []
    · rw [if_pos hc] at h
      exact h ▸ hchunks
    · rw [if_neg hc] at h
      intro c hmem
      rw [← h] at hmem
      rcases List.mem_append.mp hmem with hm | hm
      · exact hchunks c hm
      · have : c = cur := by simpa using hm
        exact this ▸ hcur
  | cons s rest ih =>
    intro cur chunks res h hchunks hcur
    simp only [splitLoop] at h
    by_cases hle : List.length (cur ++ s ++ ['\n']) ≤ maxTokens
    · rw [if_pos hle] at h
      exact ih _ _ _ h hchunks (Nat.le_succ_of_le hle)
    · rw [if_neg hle] at h
      cases hf : forceSplitGo cutFn List.length maxTokens (s.length + 1) s [] with
      | none => rw [hf] at h; exact absurd h (by simp)
      | some pr =>
        rw [hf] at h
        simp only at h
        have hbound := forceSplitGo_len_bound cutFn maxTokens hcutle _ _ _ _ _
          (by rw [hf] : forceSplitGo cutFn List.length maxTokens (s.length + 1) s [] = some (pr.1, pr.2))
          (by intro c hc; simp at hc)
        refine ih _ _ _ h ?_ ?_
        · intro c hmem
          rcases List.mem_append.mp hmem with hm | hm
          · by_cases hc : cur = []
            · rw [if_pos hc] at hm
              exact hchunks c hm
            · rw [if_neg hc] at hm
              rcases List.mem_append.mp hm with hm2 | hm2
              · exact hchunks c hm2
              · have : c = cur := by simpa using hm2
                exact this ▸ hcur
          · exact hbound.1 c hm
        · rw [List.length_append]
          have := hbound.2
          simp only [List.length_singleton]
          omega

/-- Character-count model: when everything fits the budget, the greedy loop
accumulates all remaining lines into one final chunk. -/
theorem splitLoop_greedy (cutFn : CutFn) (maxTokens : Nat) :
    ∀ (sentences : List (List Char)) (currentChunk : List Char) (chunks : List (List Char)),
      currentChunk.length + ((sentences.map (fun s => s ++ ['\n'])).flatten).length ≤ maxTokens →
      (sentences ≠ [] ∨ currentChunk ≠ []) →
      splitLoop cutFn List.length maxTokens sentences currentChunk chunks =
        some (chunks ++ [currentChunk ++ (sentences.map (fun s => s ++ ['\n'])).flatten]) := by
  intro sentences
  induction sentences with
  | nil =>
    intro cur chunks hlen hne
    have hc : cur ≠ [] := by
      rcases hne with hne | hne
      · exact absurd rfl hne
      · exact hne
    simp [splitLoop, if_neg hc]
  | cons s rest ih =>
    intro cur chunks hlen _
    have h2 : ((List.map (fun t => t ++ ['\n']) (s :: rest)).flatten).length
        = s.length + 1 + ((List.map (fun t => t ++ ['\n']) rest).flatten).length := by
      simp only [List.map_cons, List.flatten_cons, List.length_append, List.length_singleton]
    rw [h2] at hlen
    have hsize : List.length (cur ++ s ++ ['\n']) ≤ maxTokens := by
      simp only [List.length_append, List.length_singleton]
      omega
    have hne : cur ++ s ++ ['\n'] ≠ [] := by simp
    have := ih (cur ++ s ++ ['\n']) chunks (by
      simp only [List.length_append, List.length_singleton]
      omega) (Or.inr hne)
    simp only [splitLoop, if_pos hsize]
    rw [this]
    simp

/-! ### Pipeline lemmas -/

/-- Every chunk is sent to the backend exactly once, in order, whether or
not its call succeeds. -/
theorem chunkLoop_calls (b : Backend) (pageNum : Nat) :
    ∀ (cs : List String) (tr : Trace),
      ((chunkLoop b pageNum cs tr).2).calls = tr.calls ++ cs := by
  intro cs
  induction cs with
  | nil => intro tr; simp [chunkLoop]
  | cons c rest ih =>
    intro tr
    simp only [chunkLoop]
    cases b tr.calls.length c with
    | ok reply => simp [ih]
    | error e => simp [ih]

/-- Characterization of a terminating page loop run: one output per page in
order, a fixed placeholder for every blank page, and one backend call per
chunk of every non-blank page, in page order. -/
theorem pageLoop_spec (b : Backend) (cutFn : CutFn) (tok : Tok) (total : Nat) :
    ∀ (pages : List String) (i : Nat) (tr : Trace) (outs : List String) (tr' : Trace),
      pageLoop b cutFn tok total pages i tr = some (outs, tr') →
      outs.length = pages.length ∧
      (∀ j (hj : j < pages.length), (pages.get ⟨j, hj⟩).data.all Char.isWhitespace →
        outs[j]? = some (emptyPagePlaceholder (i + j + 1))) ∧
      tr'.calls = tr.calls ++ (pages.map fun p =>
        if p.data.all Char.isWhitespace then ([] : List String)
        else ((split_text_into_chunks cutFn tok p.data 2000).getD []).map fun l => String.mk l).flatten := by
  intro pages
  induction pages with
  | nil =>
    intro i tr outs tr' h
    simp only [pageLoop, Option.some.injEq, Prod.mk.injEq] at h
    refine ⟨by rw [← h.1], ?_, by rw [← h.2]; simp⟩
    intro j hj
    exact absurd hj (by simp)
  | cons p rest ih =>
    intro i tr outs tr' h
    simp only [pageLoop] at h
    cases hb : p.data.all Char.isWhitespace with
    | true =>
      rw [if_pos hb] at h
      cases hrec : pageLoop b cutFn tok total rest (i + 1)
          { tr with progress := tr.progress ++ [pageProgressLabel (i + 1) total] } with
      | none => rw [hrec] at h; exact absurd h (by simp)
      | some pr =>
        rw [hrec] at h
        simp only [Option.some.injEq, Prod.mk.injEq] at h
        obtain ⟨hlen, hblank, hcalls⟩ := ih (i + 1) _ pr.1 pr.2 (by rw [hrec])
        refine ⟨?_, ?_, ?_⟩
        · rw [← h.1]; simp [hlen]
        · intro j hj hwhite
          rw [← h.1]
          cases j with
          | zero => simp
          | succ j' =>
            simp only [List.getElem?_cons_succ]
            have : i + (j' + 1) + 1 = (i + 1) + j' + 1 := by omega
            rw [this]
            exact hblank j' (by simpa using hj) (by simpa using hwhite)
        · rw [← h.2, hcalls]
          simp only [List.map_cons, List.flatten_cons]
          rw [if_pos hb]
          simp only [List.nil_append]
    | false =>
      rw [if_neg (by simp [hb])] at h
      cases hs : split_text_into_chunks cutFn tok p.data 2000 with
      | none => rw [hs] at h; exact absurd h (by simp)
      | some chunkLists =>
        rw [hs] at h
        simp only at h
        cases hrec : pageLoop b cutFn tok total rest (i + 1)
            (chunkLoop b (i + 1) (chunkLists.map fun l => String.mk l)
              { tr with progress := tr.progress ++ [pageProgressLabel (i + 1) total] }).2 with
        | none => rw [hrec] at h; exact absurd h (by simp)
        | some pr =>
          rw [hrec] at h
          simp only [Option.some.injEq, Prod.mk.injEq] at h
          obtain ⟨hlen, hblank, hcalls⟩ := ih (i + 1) _ pr.1 pr.2 (by rw [hrec])
          refine ⟨?_, ?_, ?_⟩
          · rw [← h.1]; simp [hlen]
          · intro j hj hwhite
            rw [← h.1]
            cases j with
            | zero =>
              have : (p :: rest).get ⟨0, hj⟩ = p := rfl
              rw [this] at hwhite
              rw [hwhite] at hb
              exact absurd hb (by simp)
            | succ j' =>
              simp only [List.getElem?_cons_succ]
              have : i + (j' + 1) + 1 = (i + 1) + j' + 1 := by omega
              rw [this]
              exact hblank j' (by simpa using hj) (by simpa using hwhite)
          · rw [← h.2, hcalls, chunkLoop_calls]
            simp only [List.map_cons, List.flatten_cons]
            rw [if_neg (by simp [hb])]
            simp only [hs, Option.getD_some, List.append_assoc]

/-- Map phase, all calls succeed: one call per chunk, in order, and the
replies are collected in order; no error is reported. -/
theorem mapLoop_ok (b : Backend) (total : Nat) :
    ∀ (cs : List String) (i : Nat) (tr : Trace) (r : Nat → String),
      (∀ j (hj : j < cs.length),
        b (tr.calls.length + j) (mapPrompt (cs.get ⟨j, hj⟩)) = .ok (r j)) →
      ∃ tr', mapLoop b total cs i tr = (some ((List.range cs.length).map r), tr') ∧
        tr'.calls = tr.calls ++ cs.map mapPrompt ∧ tr'.errors = tr.errors := by
  intro cs
  induction cs with
  | nil => intro i tr r _; exact ⟨tr, by simp [mapLoop]⟩
  | cons c rest ih =>
    intro i tr r hok
    have h0 : b tr.calls.length (mapPrompt c) = .ok (r 0) := by
      have := hok 0 (by simp)
      simpa using this
    obtain ⟨tr', heq, hcalls, herrs⟩ := ih (i + 1)
      { calls := tr.calls ++ [mapPrompt c], errors := tr.errors,
        progress := tr.progress ++ [summaryProgressLabel (i + 1) total] }
      (fun j => r (j + 1))
      (by
        intro j hj
        have harith : (tr.calls ++ [mapPrompt c]).length + j = tr.calls.length + (j + 1) := by
          simp only [List.length_append, List.length_singleton]
          omega
        have := hok (j + 1) (by simpa using Nat.succ_lt_succ hj)
        simp only [harith]
        simpa using this)
    refine ⟨tr', ?_, ?_, herrs⟩
    · simp only [mapLoop]
      rw [h0]
      simp only [heq]
      have hr : (List.range (rest.length + 1)).map r
          = r 0 :: (List.range rest.length).map (fun j => r (j + 1)) := by
        rw [List.range_succ_eq_map]
        simp [List.map_map, Function.comp]
      simp [hr]
    · rw [hcalls]
      simp

/-- Map phase, first failure at position `j`: the loop stops right after the
failing call; exactly the first `j + 1` chunks were sent, the error was
reported once, and no further call is made. -/
theorem mapLoop_err (b : Backend) (total : Nat) :
    ∀ (cs : List String) (i : Nat) (tr : Trace) (j : Nat) (hj : j < cs.length)
      (e : String) (r : Nat → String),
      (∀ k (hk : k < j),
        b (tr.calls.length + k) (mapPrompt (cs.get ⟨k, Nat.lt_trans hk hj⟩)) = .ok (r k)) →
      b (tr.calls.length + j) (mapPrompt (cs.get ⟨j, hj⟩)) = .error e →
      ∃ tr', mapLoop b total cs i tr = (none, tr') ∧
        tr'.calls = tr.calls ++ (cs.take (j + 1)).map mapPrompt ∧
        tr'.errors = tr.errors ++ [summaryErrorMsg e] := by
  intro cs
  induction cs with
  | nil => intro i tr j hj; exact absurd hj (by simp)
  | cons c rest ih =>
    intro i tr j hj e r hpre herr
    cases j with
    | zero =>
      have h0 : b tr.calls.length (mapPrompt c) = .error e := by simpa using herr
      refine ⟨{ calls := tr.calls ++ [mapPrompt c],
                errors := tr.errors ++ [summaryErrorMsg e],
                progress := tr.progress }, ?_, ?_, ?_⟩
      · simp only [mapLoop]
        rw [h0]
      · simp
      · simp
    | succ k =>
      have h0 : b tr.calls.length (mapPrompt c) = .ok (r 0) := by
        have := hpre 0 (Nat.succ_pos k)
        simpa using this
      obtain ⟨tr', heq, hcalls, herrs⟩ := ih (i + 1)
        { calls := tr.calls ++ [mapPrompt c], errors := tr.errors,
          progress := tr.progress ++ [summaryProgressLabel (i + 1) total] }
        k (by simpa using Nat.lt_of_succ_lt_succ hj) e (fun m => r (m + 1))
        (by
          intro m hm
          have harith : (tr.calls ++ [mapPrompt c]).length + m = tr.calls.length + (m + 1) := by
            simp only [List.length_append, List.length_singleton]
            omega
          have := hpre (m + 1) (Nat.succ_lt_succ hm)
          simp only [harith]
          simpa using this)
        (by
          have harith : (tr.calls ++ [mapPrompt c]).length + k = tr.calls.length + (k + 1) := by
            simp only [List.length_append, List.length_singleton]
            omega
          simp only [harith]
          simpa using herr)
      refine ⟨tr', ?_, ?_, herrs⟩
      · simp only [mapLoop]
        rw [h0]
        simp [heq]
      · rw [hcalls]
        simp [List.take_succ_cons]

/-- A successful map phase reports no error and sends every chunk prompt,
in order. -/
theorem mapLoop_some (b : Backend) (total : Nat) :
    ∀ (cs : List String) (i : Nat) (tr : Trace) (parts : List String) (tr' : Trace),
      mapLoop b total cs i tr = (some parts, tr') →
      tr'.errors = tr.errors ∧ tr'.calls = tr.calls ++ cs.map mapPrompt := by
  intro cs
  induction cs with
  | nil =>
    intro i tr parts tr' h
    simp only [mapLoop, Prod.mk.injEq] at h
    rw [← h.2]
    simp
  | cons c rest ih =>
    intro i tr parts tr' h
    simp only [mapLoop] at h
    cases hb : b tr.calls.length (mapPrompt c) with
    | error e => rw [hb] at h; simp at h
    | ok reply =>
      rw [hb] at h
      simp only at h
      cases hrec : (mapLoop b total rest (i + 1)
          { calls := tr.calls ++ [mapPrompt c], errors := tr.errors,
            progress := tr.progress ++ [summaryProgressLabel (i + 1) total] }).1 with
      | none => rw [hrec] at h; simp at h
      | some parts' =>
        rw [hrec] at h
        simp only [Prod.mk.injEq] at h
        have hfull : mapLoop b total rest (i + 1)
            { calls := tr.calls ++ [mapPrompt c], errors := tr.errors,
              progress := tr.progress ++ [summaryProgressLabel (i + 1) total] }
            = (some parts', tr') := by
          rw [← h.2, ← hrec]
        obtain ⟨he, hc⟩ := ih _ _ _ _ hfull
        refine ⟨he, ?_⟩
        rw [hc]
        simp

/-- A failed map phase reports exactly one new error. -/
theorem mapLoop_none (b : Backend) (total : Nat) :
    ∀ (cs : List String) (i : Nat) (tr : Trace) (tr' : Trace),
      mapLoop b total cs i tr = (none, tr') →
      ∃ e, tr'.errors = tr.errors ++ [summaryErrorMsg e] := by
  intro cs
  induction cs with
  | nil => intro i tr tr' h; simp [mapLoop] at h
  | cons c rest ih =>
    intro i tr tr' h
    simp only [mapLoop] at h
    cases hb : b tr.calls.length (mapPrompt c) with
    | error e =>
      rw [hb] at h
      simp only [Prod.mk.injEq] at h
      exact ⟨e, by rw [← h.2]⟩
    | ok reply =>
      rw [hb] at h
      simp only at h
      cases hrec : (mapLoop b total rest (i + 1)
          { calls := tr.calls ++ [mapPrompt c], errors := tr.errors,
            progress := tr.progress ++ [summaryProgressLabel (i + 1) total] }).1 with
      | none =>
        rw [hrec] at h
        simp only [Prod.mk.injEq] at h
        have hfull : mapLoop b total rest (i + 1)
            { calls := tr.calls ++ [mapPrompt c], errors := tr.errors,
              progress := tr.progress ++ [summaryProgressLabel (i + 1) total] }
            = (none, tr') := by
          rw [← h.2, ← hrec]
        exact ih (i + 1)
          { calls := tr.calls ++ [mapPrompt c], errors := tr.errors,
            progress := tr.progress ++ [summaryProgressLabel (i + 1) total] } tr' hfull
      | some parts' => rw [hrec] at h; simp at h

/-! ### Claim theorems -/

/-- Claim C1, counterexample.  The claim states that every returned chunk is
at or under the budget for every text, token model and budget.  Under the
character-count token model with budget 1, the input `"ab"` returns the
chunk `"b\n"` — the buffer started from the force-split remainder plus its
appended newline, handed back without a budget re-check — whose token count
2 exceeds the budget.  (CPython evaluates the cut point `int(2 * (1 / 2))`
to 1, the same value as `intCut`, so the run shown is the program's run.) -/
theorem C1_counterexample :
    split_text_into_chunks intCut List.length "ab".data 1 = some [['a'], ['b', '\n']] ∧
      1 < List.length ['b', '\n'] :=
  ⟨by decide, by decide⟩

/-- The exact-floor cut point never exceeds the budget when the token count
equals the character count. -/
theorem intCut_le (l m : Nat) : intCut l m l ≤ m := by
  show l * m / l ≤ m
  cases Nat.eq_zero_or_pos l with
  | inl h =>
    subst h
    simp
  | inr h =>
    rw [Nat.mul_div_cancel_left m h]

/-- Claim C1, amended: under the character-count token model, every chunk a
terminating run returns has token count at most `maxTokens + 1`; the extra
token is the newline appended to a force-split remainder, which is restarted
as a buffer without a budget re-check.  The cut point is abstract; the only
assumption is that it never exceeds the budget, which the floating-point
`int(len * (max_tokens / len))` satisfies. -/
theorem C1_amended (cutFn : CutFn) (text : List Char) (maxTokens : Nat)
    (hcutle : ∀ l m : Nat, cutFn l m l ≤ m)
    (chunks : List (List Char))
    (hrun : split_text_into_chunks cutFn List.length text maxTokens = some chunks) :
    ∀ c ∈ chunks, List.length c ≤ maxTokens + 1 :=
  splitLoop_len_bound cutFn maxTokens hcutle _ _ _ _ hrun
    (by intro c hc; simp at hc) (by simp)

/-- Claim C1, witness for the amended theorem at budget 1 on `"ab"`, with
the exact-floor cut point (which CPython also computes on this input). -/
theorem C1_witness :
    split_text_into_chunks intCut List.length "ab".data 1 = some [['a'], ['b', '\n']] ∧
      ∀ c ∈ [['a'], ['b', '\n']], List.length c ≤ 1 + 1 :=
  ⟨by decide,
   C1_amended intCut "ab".data 1 (fun l m => intCut_le l m) [['a'], ['b', '\n']] (by decide)⟩

/-- Claim C2, counterexample.  On the empty text the chunker does not return
the empty chunk sequence: Python `"".split('\n')` is `[""]`, the single empty
line is accumulated as `"" + "\n"`, and the final flush returns the one-chunk
sequence `["\n"]`. -/
theorem C2_counterexample :
    split_text_into_chunks intCut List.length [] 5 = some [['\n']] ∧
      [['\n']] ≠ ([] : List (List Char)) :=
  ⟨by decide, by decide⟩

/-- Claim C2, amended: on the empty text the chunker returns the one-element
sequence containing the single-newline chunk (whenever that newline chunk
passes the budget check). -/
theorem C2_amended (cutFn : CutFn) (tok : Tok) (maxTokens : Nat) (h : tok ['\n'] ≤ maxTokens) :
    split_text_into_chunks cutFn tok [] maxTokens = some [['\n']] := by
  simp [split_text_into_chunks, pySplit, splitLoop, h]

/-- Claim C2, witness for the amended theorem. -/
theorem C2_witness :
    List.length ['\n'] ≤ 1 ∧ split_text_into_chunks intCut List.length [] 1 = some [['\n']] :=
  ⟨by decide, C2_amended intCut List.length 1 (by decide)⟩

/-- Claim C3: concatenating the returned chunks, in order, reconstructs the
input text up to trailing-newline normalization (the text plus one final
newline), for every token model on which the chunker returns; under the
character-count model a text that fits the budget comes back as one single
chunk; and the pieces cut off by the force-split loop, followed by the final
remainder, concatenate back to the original line exactly. -/
theorem C3_reconstruction (cutFn : CutFn) (tok : Tok) (text : List Char) (maxTokens : Nat) :
    (∀ chunks, split_text_into_chunks cutFn tok text maxTokens = some chunks →
      chunks.flatten = text ++ ['\n']) ∧
    (text.length + 1 ≤ maxTokens →
      split_text_into_chunks cutFn List.length text maxTokens = some [text ++ ['\n']]) ∧
    (∀ (fuel : Nat) (sentence : List Char) (pieces : List (List Char)) (remainder : List Char),
      forceSplitGo cutFn tok maxTokens fuel sentence [] = some (pieces, remainder) →
      pieces.flatten ++ remainder = sentence) := by
  refine ⟨?_, ?_, ?_⟩
  · intro chunks h
    have := splitLoop_flatten cutFn tok maxTokens _ _ _ _ h
    rw [this, pySplit_flatten]
    simp
  · intro h
    unfold split_text_into_chunks
    have hlen : ([] : List Char).length
        + (((pySplit '\n' text).map (fun s => s ++ ['\n'])).flatten).length ≤ maxTokens := by
      rw [pySplit_flatten]
      simpa using h
    have := splitLoop_greedy cutFn maxTokens (pySplit '\n' text) [] [] hlen
      (Or.inl (pySplit_ne_nil '\n' text))
    rw [this, pySplit_flatten]
    simp
  · intro fuel s pieces r h
    have := forceSplitGo_flatten cutFn tok maxTokens fuel s [] pieces r h
    simpa using this

/-- Claim C3, witness: the three-line scenario fits a budget of 100 under
the character-count model and comes back as the whole text plus one trailing
newline; a ten-character line at budget 2 (five times the budget) is
force-split into pieces whose concatenation restores the text plus the same
trailing newline. -/
theorem C3_witness :
    ("Hello world\nLine two\nLine three".data.length + 1 ≤ 100 ∧
      split_text_into_chunks intCut List.length "Hello world\nLine two\nLine three".data 100
        = some ["Hello world\nLine two\nLine three".data ++ ['\n']]) ∧
    (split_text_into_chunks intCut List.length "abcdefghij".data 2
        = some [['a','b'], ['c','d'], ['e','f'], ['g','h'], ['i','j','\n']] ∧
      [['a','b'], ['c','d'], ['e','f'], ['g','h'], ['i','j','\n']].flatten
        = "abcdefghij".data ++ ['\n']) :=
  ⟨⟨by decide, (C3_reconstruction intCut List.length "Hello world\nLine two\nLine three".data 100).2.1
      (by decide)⟩,
   ⟨by decide, (C3_reconstruction intCut List.length "abcdefghij".data 2).1 _ (by decide)⟩⟩

/-- Claim C9, counterexample.  The claim states the chunker terminates for
every text, token model and positive budget because the cut point is always
at least 1.  Under a token model that counts two tokens per character (as a
byte-pair encoding can on multi-byte characters), the one-character line
`"a"` at budget 1 yields the cut point `int(1 * (1 / 2)) = 0` — CPython
computes 0 here, the same value as `intCut` — so the remaining line never
shrinks and the `while` loop never terminates (modelled by `none`). -/
theorem C9_counterexample :
    split_text_into_chunks intCut (fun s => 2 * s.length) ['a'] 1 = none ∧
      intCut (List.length ['a']) 1 (2 * List.length ['a']) = 0 :=
  ⟨by decide, by decide⟩

/-- Claim C9, amended: the chunker terminates exactly when the computed cut
points stay positive.  (1) If on every over-budget sentence the computed cut
point is at least 1 and the empty string is within budget, the chunker
returns; (2) an over-budget sentence whose computed cut point is 0 never
shrinks, and the force-split loop never terminates, whatever the fuel.  The
cut point `int(len * (max_tokens / token_count))` is not always positive: it
is 0 whenever the token count exceeds `len * max_tokens` (e.g. one character
counting two tokens at budget 1), and floating-point rounding can make it 0
even when the token count is at most the character count (CPython evaluates
`int(49 * (1 / 49))` to 0). -/
theorem C9_amended (cutFn : CutFn) (tok : Tok) (text : List Char) (maxTokens : Nat) :
    ((∀ s : List Char, maxTokens < tok s → 1 ≤ cutFn s.length maxTokens (tok s)) →
      tok [] ≤ maxTokens →
      ∃ chunks, split_text_into_chunks cutFn tok text maxTokens = some chunks) ∧
    (∀ s : List Char, maxTokens < tok s → cutFn s.length maxTokens (tok s) = 0 →
      ∀ (fuel : Nat) (acc : List (List Char)),
        forceSplitGo cutFn tok maxTokens fuel s acc = none) := by
  constructor
  · intro hcut htok0
    exact splitLoop_total cutFn tok maxTokens hcut htok0 _ [] []
  · intro s hs hzero
    exact forceSplitGo_zero_cut cutFn tok maxTokens s hs hzero

/-- Claim C9, witness: with every cut point 1 the run on `"ab\ncd"` at
budget 1 terminates; with the zero cut point that `intCut` (and CPython)
computes on a one-character sentence counting two tokens, the force-split
loop returns `none`, here at fuel 2. -/
theorem C9_witness :
    (∃ chunks,
      split_text_into_chunks (fun _ _ _ => 1) List.length "ab\ncd".data 1 = some chunks) ∧
      forceSplitGo intCut (fun s => 2 * s.length) 1 2 ['a'] [] = none :=
  ⟨(C9_amended (fun _ _ _ => 1) List.length "ab\ncd".data 1).1
      (fun s hs => Nat.le_refl 1) (by decide),
   (C9_amended intCut (fun s => 2 * s.length) [] 1).2 ['a'] (by decide) (by decide) 2 []⟩

/-- Claim C7: an empty page list makes `translate_page_by_page` return `""`
at once with zero backend calls, zero error reports and zero progress
signals, and empty text makes `summarize_text` return `""` at once with zero
backend calls. -/
theorem C7_empty_input (b : Backend) (cutFn : CutFn) (tok : Tok) (customPrompt : String) :
    translate_page_by_page b cutFn tok [] = some ("", ⟨[], [], []⟩) ∧
      summarize_text b cutFn tok "" customPrompt = some ("", ⟨[], [], []⟩) :=
  ⟨rfl, rfl⟩

/-- Claim C6: a terminating run on a non-empty page list returns one page
section per input page, in input order, each introduced by the numbered page
delimiter; blank pages are kept as placeholder sections, so page count and
numbering match the input. -/
theorem C6_page_sections (b : Backend) (cutFn : CutFn) (tok : Tok) (pages : List String)
    (out : String) (tr : Trace) (hne : pages ≠ [])
    (h : translate_page_by_page b cutFn tok pages = some (out, tr)) :
    ∃ outs : List String, outs.length = pages.length ∧
      out = joinSep "\n\n\n" ((enumFrom 0 outs).map fun q => pageHeader (q.1 + 1) ++ q.2) ∧
      ∀ j (hj : j < pages.length), (pages.get ⟨j, hj⟩).data.all Char.isWhitespace →
        outs[j]? = some (emptyPagePlaceholder (j + 1)) := by
  simp only [translate_page_by_page] at h
  rw [if_neg hne] at h
  cases hp : pageLoop b cutFn tok pages.length pages 0 ⟨[], [], ["翻訳の準備をしています..."]⟩ with
  | none => rw [hp] at h; exact absurd h (by simp)
  | some pr =>
    rw [hp] at h
    simp only [Option.some.injEq, Prod.mk.injEq] at h
    obtain ⟨hlen, hblank, _⟩ := pageLoop_spec b cutFn tok pages.length pages 0 _ pr.1 pr.2
      (by rw [hp])
    refine ⟨pr.1, hlen, h.1.symm, ?_⟩
    intro j hj hwhite
    have := hblank j hj hwhite
    simpa using this

/-- Claim C8: on every terminating run, the backend calls are exactly the
chunks of the non-blank pages, in page order — a blank (empty or
whitespace-only) page contributes no call at all — and every blank page
still produces its fixed placeholder section while the remaining pages are
processed. -/
theorem C8_blank_pages (b : Backend) (cutFn : CutFn) (tok : Tok) (pages : List String)
    (out : String) (tr : Trace)
    (h : translate_page_by_page b cutFn tok pages = some (out, tr)) :
    tr.calls = (pages.map fun p =>
      if p.data.all Char.isWhitespace then ([] : List String)
      else ((split_text_into_chunks cutFn tok p.data 2000).getD []).map fun l => String.mk l).flatten ∧
    ∃ outs : List String, outs.length = pages.length ∧
      out = joinSep "\n\n\n" ((enumFrom 0 outs).map fun q => pageHeader (q.1 + 1) ++ q.2) ∧
      ∀ j (hj : j < pages.length), (pages.get ⟨j, hj⟩).data.all Char.isWhitespace →
        outs[j]? = some (emptyPagePlaceholder (j + 1)) := by
  by_cases hne : pages = []
  · subst hne
    rw [translate_page_by_page, if_pos rfl] at h
    simp only [Option.some.injEq, Prod.mk.injEq] at h
    refine ⟨by rw [← h.2]; simp, [], by simp, by rw [← h.1]; simp [joinSep, enumFrom], ?_⟩
    intro j hj
    exact absurd hj (by simp)
  · simp only [translate_page_by_page] at h
    rw [if_neg hne] at h
    cases hp : pageLoop b cutFn tok pages.length pages 0 ⟨[], [], ["翻訳の準備をしています..."]⟩ with
    | none => rw [hp] at h; exact absurd h (by simp)
    | some pr =>
      rw [hp] at h
      simp only [Option.some.injEq, Prod.mk.injEq] at h
      obtain ⟨hlen, hblank, hcalls⟩ := pageLoop_spec b cutFn tok pages.length pages 0 _ pr.1 pr.2
        (by rw [hp])
      refine ⟨?_, pr.1, hlen, h.1.symm, ?_⟩
      · rw [← h.2]
        simpa using hcalls
      · intro j hj hwhite
        have := hblank j hj hwhite
        simpa using this

theorem mk_data (s : String) : String.mk s.data = s := rfl

/-- Claim C5: on a page whose chunk sequence has length 3, if the backend
call for the 2nd chunk raises and the calls for the 1st and 3rd chunks
reply, the page output still joins 3 parts with newlines — the 2nd part is
the fixed sentinel, the 1st and 3rd are the backend replies verbatim — the
error is reported, and the run continues with the following page instead of
aborting. -/
theorem C5_partial_failure (b : Backend) (cutFn : CutFn) (tok : Tok) (p c1 c2 c3 r1 r3 e : String)
    (hp : ¬ (p.data.all Char.isWhitespace = true))
    (hsplit : split_text_into_chunks cutFn tok p.data 2000 = some [c1.data, c2.data, c3.data])
    (h1 : b 0 c1 = .ok r1) (h2 : b 1 c2 = .error e) (h3 : b 2 c3 = .ok r3) :
    ∃ tr, translate_page_by_page b cutFn tok [p, ""] = some
        (joinSep "\n\n\n"
          [pageHeader 1 ++ joinSep "\n" [r1, errSentinel, r3],
           pageHeader 2 ++ emptyPagePlaceholder 2], tr) ∧
      tr.calls = [c1, c2, c3] ∧ tr.errors = [translateErrorMsg 1 e] := by
  refine ⟨⟨[c1, c2, c3], [translateErrorMsg 1 e],
    ["翻訳の準備をしています...", pageProgressLabel 1 2, pageProgressLabel 2 2, "翻訳完了！"]⟩,
    ?_, rfl, rfl⟩
  simp only [translate_page_by_page]
  rw [if_neg (by simp : ¬([p, ""] = ([] : List String)))]
  simp only [pageLoop]
  rw [if_neg hp, hsplit]
  simp only [List.map_cons, List.map_nil, mk_data, List.length_cons, List.length_nil,
    List.length_singleton]
  simp only [chunkLoop, List.length_nil, List.nil_append, List.length_singleton]
  rw [h1]
  simp only [chunkLoop, List.length_append, List.length_singleton, List.length_nil,
    List.nil_append, List.length_cons]
  rw [h2]
  simp only [chunkLoop]
  norm_num
  rw [h3]
  simp only [chunkLoop]
  simp [joinSep, enumFrom]

/-- Claim C4: with non-empty text and a terminating chunker, (1) when every
map call replies and the reduce call replies, the backend calls are exactly
one map call per chunk, in chunk order, followed by exactly one reduce call
issued after all of them, and the reduce reply is returned with no error;
(2) when a map call raises, the calls stop at the failing map call — no
reduce call is ever issued — the error is reported, and the empty string is
returned. -/
theorem C4_map_reduce (b : Backend) (cutFn : CutFn) (tok : Tok) (text customPrompt : String)
    (chunkLists : List (List Char)) (htext : ¬ (text = ""))
    (hsplit : split_text_into_chunks cutFn tok text.data 3000 = some chunkLists) :
    (∀ (r : Nat → String) (finalReply : String),
      (∀ j (hj : j < (chunkLists.map fun l => String.mk l).length),
        b j (mapPrompt ((chunkLists.map fun l => String.mk l).get ⟨j, hj⟩)) = .ok (r j)) →
      b (chunkLists.map fun l => String.mk l).length
          (reducePrompt customPrompt
            (joinSep "\n" ((List.range (chunkLists.map fun l => String.mk l).length).map r)))
        = .ok finalReply →
      ∃ tr, summarize_text b cutFn tok text customPrompt = some (finalReply, tr) ∧
        tr.calls = ((chunkLists.map fun l => String.mk l).map mapPrompt)
          ++ [reducePrompt customPrompt
               (joinSep "\n" ((List.range (chunkLists.map fun l => String.mk l).length).map r))] ∧
        tr.errors = []) ∧
    (∀ (r : Nat → String) (j : Nat)
      (hj : j < (chunkLists.map fun l => String.mk l).length) (e : String),
      (∀ k (hk : k < j),
        b k (mapPrompt ((chunkLists.map fun l => String.mk l).get ⟨k, Nat.lt_trans hk hj⟩))
          = .ok (r k)) →
      b j (mapPrompt ((chunkLists.map fun l => String.mk l).get ⟨j, hj⟩)) = .error e →
      ∃ tr, summarize_text b cutFn tok text customPrompt = some ("", tr) ∧
        tr.calls = (((chunkLists.map fun l => String.mk l).take (j + 1)).map mapPrompt) ∧
        tr.errors = [summaryErrorMsg e]) := by
  constructor
  · intro r finalReply hok hred
    obtain ⟨tr', heq, hcalls, herrs⟩ := mapLoop_ok b (chunkLists.map fun l => String.mk l).length
      (chunkLists.map fun l => String.mk l) 0 ⟨[], [], ["段階的要約を開始..."]⟩ r
      (by intro j hj; simpa using hok j hj)
    refine ⟨{ tr' with calls := tr'.calls
        ++ [reducePrompt customPrompt
             (joinSep "\n" ((List.range (chunkLists.map fun l => String.mk l).length).map r))] },
      ?_, ?_, by simpa using herrs⟩
    · simp only [summarize_text]
      rw [if_neg htext, hsplit]
      simp only [heq]
      have hlen : tr'.calls.length = (chunkLists.map fun l => String.mk l).length := by
        rw [hcalls]
        simp
      rw [hlen, hred]
    · rw [hcalls]
      simp
  · intro r j hj e hpre herr
    obtain ⟨tr', heq, hcalls, herrs⟩ := mapLoop_err b (chunkLists.map fun l => String.mk l).length
      (chunkLists.map fun l => String.mk l) 0 ⟨[], [], ["段階的要約を開始..."]⟩ j hj e r
      (by intro k hk; simpa using hpre k hk)
      (by simpa using herr)
    refine ⟨tr', ?_, by simpa using hcalls, by simpa using herrs⟩
    simp only [summarize_text]
    rw [if_neg htext, hsplit]
    simp only [heq]

/-- Claim C10: on every terminating run of `summarize_text`, if any backend
call raised (an error was reported) the returned summary is exactly the
empty string — every intermediate summary is discarded; and on an error-free
run with non-empty text the returned summary is verbatim the reply of the
final call, whose prompt is the reduce prompt, issued last. -/
theorem C10_failure_empty (b : Backend) (cutFn : CutFn) (tok : Tok) (text customPrompt out : String)
    (tr : Trace) (h : summarize_text b cutFn tok text customPrompt = some (out, tr)) :
    (tr.errors ≠ [] → out = "") ∧
    (tr.errors = [] → ¬ (text = "") →
      ∃ pre prompt combined, tr.calls = pre ++ [prompt] ∧
        prompt = reducePrompt customPrompt combined ∧ b pre.length prompt = .ok out) := by
  by_cases htext : text = ""
  · rw [summarize_text, if_pos htext] at h
    simp only [Option.some.injEq, Prod.mk.injEq] at h
    exact ⟨fun _ => h.1.symm, fun _ hne => absurd htext hne⟩
  · simp only [summarize_text] at h
    rw [if_neg htext] at h
    cases hs : split_text_into_chunks cutFn tok text.data 3000 with
    | none => rw [hs] at h; exact absurd h (by simp)
    | some chunkLists =>
      rw [hs] at h
      simp only at h
      cases hm : (mapLoop b (chunkLists.map fun l => String.mk l).length
          (chunkLists.map fun l => String.mk l) 0 ⟨[], [], ["段階的要約を開始..."]⟩).1 with
      | none =>
        rw [hm] at h
        simp only [Option.some.injEq, Prod.mk.injEq] at h
        constructor
        · intro _; exact h.1.symm
        · intro herrs _
          obtain ⟨e, he⟩ := mapLoop_none b (chunkLists.map fun l => String.mk l).length
            (chunkLists.map fun l => String.mk l) 0 ⟨[], [], ["段階的要約を開始..."]⟩ _
            (by rw [← hm])
          rw [h.2] at he
          rw [herrs] at he
          simp at he
      | some summaries =>
        rw [hm] at h
        simp only at h
        have hsome := mapLoop_some b (chunkLists.map fun l => String.mk l).length
          (chunkLists.map fun l => String.mk l) 0 ⟨[], [], ["段階的要約を開始..."]⟩ summaries _
          (by rw [← hm])
        cases hb : b (mapLoop b (chunkLists.map fun l => String.mk l).length
            (chunkLists.map fun l => String.mk l) 0 ⟨[], [], ["段階的要約を開始..."]⟩).2.calls.length
            (reducePrompt customPrompt (joinSep "\n" summaries)) with
        | error e =>
          rw [hb] at h
          simp only [Option.some.injEq, Prod.mk.injEq] at h
          constructor
          · intro _; exact h.1.symm
          · intro herrs _
            rw [← h.2] at herrs
            simp only at herrs
            rw [hsome.1] at herrs
            simp at herrs
        | ok reply =>
          rw [hb] at h
          simp only [Option.some.injEq, Prod.mk.injEq] at h
          constructor
          · intro herrs
            rw [← h.2] at herrs
            simp only at herrs
            rw [hsome.1] at herrs
            exact absurd rfl herrs
          · intro _ _
            refine ⟨(mapLoop b (chunkLists.map fun l => String.mk l).length
                (chunkLists.map fun l => String.mk l) 0 ⟨[], [], ["段階的要約を開始..."]⟩).2.calls,
              reducePrompt customPrompt (joinSep "\n" summaries),
              joinSep "\n" summaries, ?_, rfl, ?_⟩
            · rw [← h.2]
            · rw [hb, h.1]

/-! ### Concrete oracles for the witnesses -/

/-- Character-count token oracle: one token per character. -/
def charTok : Tok := fun l => l.length

/-- A coarse token oracle: a thousand tokens per character, so that short
texts already need several chunks at the fixed budgets. -/
def tokThousand : Tok := fun l => 1000 * l.length

/-- Backend replying the call index, with final reply `"F"` on call 2. -/
def bMapOk : Backend := fun k _ => if k = 2 then .ok "F" else .ok (toString k)

/-- Backend raising on call 1, otherwise replying the call index. -/
def bMapErr : Backend := fun k _ => if k = 1 then .error "e1" else .ok (toString k)

/-- Backend raising `"boom"` on call 1, otherwise replying `"T<index>"`. -/
def bTransErr : Backend := fun k _ => if k = 1 then .error "boom" else .ok ("T" ++ toString k)

/-- Backend replying `"T"` to every call. -/
def bAllOk : Backend := fun _ _ => .ok "T"

/-- Backend raising `"x"` on every call. -/
def bAllErr : Backend := fun _ _ => .error "x"

/-- Claim C4, witness: two chunks; with no failure the calls are the two map
prompts then the single reduce prompt and the reduce reply is returned; with
a failure on the second map call the calls stop there, no reduce prompt is
issued, and `""` is returned. -/
theorem C4_witness :
    (∃ tr, summarize_text bMapOk intCut tokThousand "a\nb" "P" = some ("F", tr) ∧
      tr.calls = ((([['a','\n'], ['b','\n']] : List (List Char)).map fun l => String.mk l).map mapPrompt)
        ++ [reducePrompt "P" (joinSep "\n"
             ((List.range (([['a','\n'], ['b','\n']] : List (List Char)).map fun l => String.mk l).length).map
               fun j => toString j))] ∧
      tr.errors = []) ∧
    (∃ tr, summarize_text bMapErr intCut tokThousand "a\nb" "P" = some ("", tr) ∧
      tr.calls = (((([['a','\n'], ['b','\n']] : List (List Char)).map fun l => String.mk l).take (1 + 1)).map mapPrompt) ∧
      tr.errors = [summaryErrorMsg "e1"]) :=
  ⟨(C4_map_reduce bMapOk intCut tokThousand "a\nb" "P" [['a','\n'], ['b','\n']]
      (by decide) (by decide)).1 (fun j => toString j) "F" (by decide) (by decide),
   (C4_map_reduce bMapErr intCut tokThousand "a\nb" "P" [['a','\n'], ['b','\n']]
      (by decide) (by decide)).2 (fun j => toString j) 1 (by decide) "e1"
      (by decide) (by decide)⟩

/-- Claim C5, witness: the page `"a\nb\nc"` splits into three chunks under
`tokThousand`; call 1 raises, calls 0 and 2 reply; the page output joins the
reply, the sentinel and the reply, and the following empty page is still
processed. -/
theorem C5_witness :
    ∃ tr, translate_page_by_page bTransErr intCut tokThousand ["a\nb\nc", ""] = some
        (joinSep "\n\n\n"
          [pageHeader 1 ++ joinSep "\n" ["T0", errSentinel, "T2"],
           pageHeader 2 ++ emptyPagePlaceholder 2], tr) ∧
      tr.calls = ["a\n", "b\n", "c\n"] ∧ tr.errors = [translateErrorMsg 1 "boom"] :=
  C5_partial_failure bTransErr intCut tokThousand "a\nb\nc" "a\n" "b\n" "c\n" "T0" "T2" "boom"
    (by decide) (by decide) (by decide) (by decide) (by decide)

/-- Claim C6, witness: a blank first page and a one-chunk second page yield
two numbered sections in order, the first being the blank-page placeholder. -/
theorem C6_witness :
    ((["", "a"] : List String) ≠ []) ∧
    ∃ outs : List String, outs.length = (["", "a"] : List String).length ∧
      "--- ページ 1 ---\n\n--- ページ 1 (内容は空でした) ---\n\n\n--- ページ 2 ---\n\nT"
        = joinSep "\n\n\n" ((enumFrom 0 outs).map fun q => pageHeader (q.1 + 1) ++ q.2) ∧
      ∀ j (hj : j < (["", "a"] : List String).length),
        ((["", "a"] : List String).get ⟨j, hj⟩).data.all Char.isWhitespace →
        outs[j]? = some (emptyPagePlaceholder (j + 1)) :=
  ⟨by decide,
   C6_page_sections bAllOk intCut charTok ["", "a"]
     "--- ページ 1 ---\n\n--- ページ 1 (内容は空でした) ---\n\n\n--- ページ 2 ---\n\nT"
     ⟨["a\n"], [],
      ["翻訳の準備をしています...", pageProgressLabel 1 2, pageProgressLabel 2 2, "翻訳完了！"]⟩
     (by decide) (by decide)⟩

/-- Claim C8, witness: the whitespace-only second page contributes no
backend call (the only call is the first page's single chunk) and is
rendered as the placeholder section. -/
theorem C8_witness :
    (⟨["x\n"], [],
      ["翻訳の準備をしています...", pageProgressLabel 1 2, pageProgressLabel 2 2, "翻訳完了！"]⟩ : Trace).calls
      = ((["x", " "] : List String).map fun p =>
          if p.data.all Char.isWhitespace then ([] : List String)
          else ((split_text_into_chunks intCut charTok p.data 2000).getD []).map fun l => String.mk l).flatten ∧
    ∃ outs : List String, outs.length = (["x", " "] : List String).length ∧
      "--- ページ 1 ---\n\nT\n\n\n--- ページ 2 ---\n\n--- ページ 2 (内容は空でした) ---"
        = joinSep "\n\n\n" ((enumFrom 0 outs).map fun q => pageHeader (q.1 + 1) ++ q.2) ∧
      ∀ j (hj : j < (["x", " "] : List String).length),
        ((["x", " "] : List String).get ⟨j, hj⟩).data.all Char.isWhitespace →
        outs[j]? = some (emptyPagePlaceholder (j + 1)) :=
  C8_blank_pages bAllOk intCut charTok ["x", " "]
    "--- ページ 1 ---\n\nT\n\n\n--- ページ 2 ---\n\n--- ページ 2 (内容は空でした) ---"
    ⟨["x\n"], [],
     ["翻訳の準備をしています...", pageProgressLabel 1 2, pageProgressLabel 2 2, "翻訳完了！"]⟩
    (by decide)

/-- Claim C10, witness: with a backend that raises on every call, the
summarizer reports the error and returns exactly the empty string. -/
theorem C10_witness :
    ("" : String) = "" ∧ summarize_text bAllErr intCut charTok "a" "P"
      = some ("", ⟨[mapPrompt "a\n"], [summaryErrorMsg "x"], ["段階的要約を開始..."]⟩) :=
  ⟨(C10_failure_empty bAllErr intCut charTok "a" "P" ""
      ⟨[mapPrompt "a\n"], [summaryErrorMsg "x"], ["段階的要約を開始..."]⟩ (by decide)).1
      (by decide),
   by decide⟩
